import Mathlib

/-!
Verification of the openfairdb business core against its specification.

The Rust sources are shallowly embedded:
* f64 values are modelled by the type F64 below: an exact rational payload
  plus the three non-finite IEEE shapes (NaN, +inf, -inf).  The programs
  under study only ever combine integers, small decimal constants, sums,
  and one division, so rational arithmetic is exact for every finite
  intermediate value; the non-finite shapes and the NaN-propagating
  comparisons are modelled explicitly.
* Rust String values are modelled as lists of characters (Str).
* Vec:sort_by (a stable merge sort over contiguous halves) is modelled by
  mergeSortD below, with the comparator translated to the boolean test
  "compare result is not Greater" used by a left-biased stable merge.
* The repository trait object (Db) is modelled as a record of lists, with
  the accessors specified in section 6 of the spec; functions of the
  repository whose bodies are not part of the sources (geo::distance,
  geo::is_in_bbox, the filter module, the map-based rating sort and the
  Db primitives) are modelled from the spec and say so in their doc
  comments.
-/

/-- Rust strings, modelled as lists of characters. -/
abbrev Str := List Char

/-- Model of f64: an exact rational for finite values plus NaN and the two
infinities. -/
inductive F64 where
  | val : ℚ → F64
  | nan : F64
  | inf : F64
  | ninf : F64
deriving DecidableEq, Repr

/-- f64::is_finite. -/
def F64.isFinite : F64 → Bool
  | val _ => true
  | _ => false

/-- f64::is_nan. -/
def F64.isNaN : F64 → Bool
  | nan => true
  | _ => false

/-- IEEE negation. -/
def F64.neg : F64 → F64
  | val a => val (-a)
  | nan => nan
  | inf => ninf
  | ninf => inf

/-- IEEE addition on the model (exact on finite values). -/
def F64.add : F64 → F64 → F64
  | nan, _ => nan
  | _, nan => nan
  | inf, ninf => nan
  | ninf, inf => nan
  | inf, _ => inf
  | _, inf => inf
  | ninf, _ => ninf
  | _, ninf => ninf
  | val a, val b => val (a + b)

/-- IEEE subtraction on the model. -/
def F64.sub (a b : F64) : F64 := a.add b.neg

/-- IEEE division on the model (exact on finite values; 0/0 is NaN, x/0 is
a signed infinity for x not 0). -/
def F64.div : F64 → F64 → F64
  | nan, _ => nan
  | _, nan => nan
  | val a, val b =>
      if b = 0 then (if a = 0 then nan else if 0 < a then inf else ninf)
      else val (a / b)
  | inf, inf => nan
  | inf, ninf => nan
  | ninf, inf => nan
  | ninf, ninf => nan
  | inf, val b => if b < 0 then ninf else inf
  | ninf, val b => if b < 0 then inf else ninf
  | val _, inf => val 0
  | val _, ninf => val 0

/-- f64::partial_cmp: None whenever one side is NaN, the usual total order
on the rest. -/
def F64.fcmp : F64 → F64 → Option Ordering
  | nan, _ => none
  | _, nan => none
  | val a, val b =>
      some (if a < b then Ordering.lt else if b < a then Ordering.gt else Ordering.eq)
  | ninf, ninf => some Ordering.eq
  | ninf, _ => some Ordering.lt
  | _, ninf => some Ordering.gt
  | inf, inf => some Ordering.eq
  | inf, _ => some Ordering.gt
  | _, inf => some Ordering.lt

/-- IEEE comparison a <= b (false whenever one side is NaN). -/
def F64.fle : F64 → F64 → Bool
  | nan, _ => false
  | _, nan => false
  | ninf, _ => true
  | _, ninf => false
  | _, inf => true
  | inf, _ => false
  | val a, val b => decide (a ≤ b)

/-- entities::Coordinate. -/
structure Coordinate where
  lat : F64
  lng : F64
deriving DecidableEq, Repr

/-- entities::Bbox. -/
structure Bbox where
  south_west : Coordinate
  north_east : Coordinate
deriving DecidableEq, Repr

/-- entities::RatingContext. -/
inductive RatingContext where
  | diversity | renewable | fairness | humanity | transparency | solidarity
deriving DecidableEq, Repr

/-- entities::ObjectId: a tagged union over the entity kinds, wrapping the
entity id. -/
inductive ObjectId where
  | entry : Str → ObjectId
  | tag : Str → ObjectId
  | user : Str → ObjectId
  | comment : Str → ObjectId
  | rating : Str → ObjectId
  | bbox_subscription : Str → ObjectId
deriving DecidableEq, Repr

/-- entities::Relation.  The five predicates named by the spec (section 3);
is_tagged_with and is_rated_with appear in infrastructure/db/sqlite/util.rs
and business/sort.rs respectively. -/
inductive Relation where
  | isTaggedWith | isCommentedWith | createdBy | subscribedTo | isRatedWith
deriving DecidableEq, Repr

/-- entities::Triple. -/
structure Triple where
  subject : ObjectId
  predicate : Relation
  object : ObjectId
deriving DecidableEq, Repr

/-- entities::Entry (fields as constructed in business/usecase/mod.rs). -/
structure Entry where
  id : Str
  osm_node : Option Nat
  created : Nat
  version : Nat
  title : Str
  description : Str
  lat : F64
  lng : F64
  street : Option Str
  zip : Option Str
  city : Option Str
  country : Option Str
  email : Option Str
  telephone : Option Str
  homepage : Option Str
  categories : List Str
  tags : List Str
  license : Option Str
deriving DecidableEq, Repr

/-- entities::Rating (fields as constructed in business/usecase/mod.rs). -/
structure Rating where
  id : Str
  entry_id : Str
  created : Nat
  title : Str
  value : Int
  context : RatingContext
  source : Option Str
deriving DecidableEq, Repr

/-- entities::Comment. -/
structure Comment where
  id : Str
  created : Nat
  text : Str
deriving DecidableEq, Repr

/-- entities::Tag. -/
structure Tag where
  id : Str
deriving DecidableEq, Repr

/-- entities::User. -/
structure User where
  id : Str
  username : Str
  password : Str
  email : Str
  email_confirmed : Bool
deriving DecidableEq, Repr

/-- entities::Category. -/
structure Category where
  id : Str
  created : Nat
  version : Nat
  name : Str
deriving DecidableEq, Repr

/-- entities::BboxSubscription (fields as constructed in
business/usecase/mod.rs). -/
structure BboxSubscription where
  id : Str
  south_west_lat : F64
  south_west_lng : F64
  north_east_lat : F64
  north_east_lng : F64
deriving DecidableEq, Repr

/-! ## Rating aggregation (business/sort.rs, Rated::average_rating) -/

/-- The entry_ratings collection built inside Rated::average_rating: the
(entry id, rating id) pairs of IsRatedWith triples whose subject id equals
the id of the entry at hand (business/sort.rs lines 48-58). -/
def linkedRatingPairs (e : Entry) (triples : List Triple) : List (Str × Str) :=
  (triples.filterMap fun t =>
    match t with
    | ⟨ObjectId.entry e_id, Relation.isRatedWith, ObjectId.rating r_id⟩ =>
        some (e_id, r_id)
    | _ => none).filter fun p => p.1 == e.id

/-- Rated::average_rating (business/sort.rs lines 46-72): sum the values of
the ratings whose id occurs among the linked pairs, divide by the number of
linked pairs, and replace a NaN result by 0.0. -/
def average_rating (e : Entry) (ratings : List Rating) (triples : List Triple) : F64 :=
  let entry_ratings := linkedRatingPairs e triples
  let sum : Int :=
    (ratings.filter fun r => entry_ratings.any fun p => p.2 == r.id).foldl
      (fun acc r => acc + r.value) 0
  let avg := F64.div (F64.val (sum : ℚ)) (F64.val (entry_ratings.length : ℚ))
  if avg.isNaN then F64.val 0 else avg

/-- Spec-side definition (spec section 4.3): the arithmetic mean of exactly
the integer values of those ratings that are linked to the entry via
IsRatedWith triples (with the rational convention that the empty mean is
0). -/
def specAverageRating (e : Entry) (ratings : List Rating) (triples : List Triple) : ℚ :=
  (((ratings.filter fun r =>
      (linkedRatingPairs e triples).any fun p => p.2 == r.id).map Rating.value).sum : ℚ) /
  ((ratings.filter fun r =>
      (linkedRatingPairs e triples).any fun p => p.2 == r.id).length : ℚ)

/-! ## Stable sorting (model of Vec::sort_by)

Rust Vec::sort_by is a stable merge sort over contiguous runs; it is
modelled by the textbook stable merge sort over contiguous halves below.
The comparator f of sort_by is translated to the boolean test
le a b := (f a b is not Greater); the merge keeps the left element first
exactly when le holds, which reproduces the stability contract. -/

/-- Left-biased stable merge. -/
def mergeD (le : α → α → Bool) : List α → List α → List α
  | [], r => r
  | l, [] => l
  | a :: l, b :: r =>
      if le a b then a :: mergeD le l (b :: r) else b :: mergeD le (a :: l) r
termination_by l r => l.length + r.length

/-- Stable merge sort over contiguous halves. -/
def mergeSortD (le : α → α → Bool) (l : List α) : List α :=
  if h : l.length ≤ 1 then l
  else
    let n := l.length / 2
    mergeD le (mergeSortD le (l.take n)) (mergeSortD le (l.drop n))
termination_by l.length
decreasing_by
  · simp only [List.length_take]; omega
  · simp only [List.length_drop]; omega

/-! ## Geo and distance sort (business/sort.rs, SortByDistanceTo) -/

/-- Modelled from the spec: geo::distance (spec section 4.1) is a metric
distance that is finite for finite inputs; its body is not among the
sources, and only the induced ordering is ever consumed, so it is modelled
as the squared planar distance, with NaN for any non-finite input. -/
def distance (a b : Coordinate) : F64 :=
  match a.lat, a.lng, b.lat, b.lng with
  | F64.val alat, F64.val alng, F64.val blat, F64.val blng =>
      F64.val ((alat - blat) * (alat - blat) + (alng - blng) * (alng - blng))
  | _, _, _, _ => F64.nan

/-- DistanceTo::distance_to for Entry (business/sort.rs lines 9-17). -/
def Entry.distance_to (e : Entry) (c : Coordinate) : F64 :=
  distance ⟨e.lat, e.lng⟩ c

/-- Both coordinates of the entry are finite. -/
def Entry.finiteCoords (e : Entry) : Bool := e.lat.isFinite && e.lng.isFinite

/-- SortByDistanceTo::sort_by_distance_to (business/sort.rs lines 23-40):
return the list unchanged when the reference coordinate is non-finite;
otherwise first sort with the comparator that sends entries with
non-finite coordinates to Greater, then stably sort by the NaN-safe
comparison of distances (partial_cmp defaulted to Equal). -/
def sort_by_distance_to (entries : List Entry) (c : Coordinate) : List Entry :=
  if !(c.lat.isFinite && c.lng.isFinite) then entries
  else
    let phase1 := mergeSortD (fun a _ => a.finiteCoords) entries
    mergeSortD
      (fun a b => (((a.distance_to c).fcmp (b.distance_to c)).getD Ordering.eq) != Ordering.gt)
      phase1

/-! ## The triple identity (business/usecase/mod.rs, triple_id) -/

/-- The (kind string, id) pair of an ObjectId as matched in triple_id
(business/usecase/mod.rs lines 67-82). -/
def objectIdParts : ObjectId → Str × Str
  | ObjectId.entry id => ("entry".toList, id)
  | ObjectId.tag id => ("tag".toList, id)
  | ObjectId.user id => ("user".toList, id)
  | ObjectId.comment id => ("comment".toList, id)
  | ObjectId.rating id => ("rating".toList, id)
  | ObjectId.bbox_subscription id => ("bbox_subscription".toList, id)

/-- The predicate name as matched in triple_id (business/usecase/mod.rs
lines 83-87).  The source match is non-exhaustive: it has arms only for
IsCommentedWith, CreatedBy and SubscribedTo, so the two remaining
predicates are mapped to none. -/
def predicateName : Relation → Option Str
  | Relation.isCommentedWith => some "is_commented_with".toList
  | Relation.createdBy => some "created_by".toList
  | Relation.subscribedTo => some "subscribed_to".toList
  | _ => none

/-- triple_id (business/usecase/mod.rs lines 66-89): the five components
joined by the separator character, none on the predicates the source match
does not cover. -/
def triple_id (t : Triple) : Option Str :=
  let s := objectIdParts t.subject
  let o := objectIdParts t.object
  match predicateName t.predicate with
  | some p => some (s.1 ++ '-' :: s.2 ++ '-' :: p ++ '-' :: o.1 ++ '-' :: o.2)
  | none => none

/-- A triple whose subject and object ids avoid the separator character. -/
def cleanTriple (t : Triple) : Bool :=
  !((objectIdParts t.subject).2.contains '-') && !((objectIdParts t.object).2.contains '-')

/-! ## Hashtags (infrastructure/web/mod.rs lines 120-134)

The regex used there matches a hash sign followed by one or more word
characters, optionally extended by hyphen-joined word groups.  The
captures_iter / replace_all behaviour on that pattern is embedded as a
direct left-to-right scan. -/

/-- Word characters of the hashtag regex. -/
def isWordChar (c : Char) : Bool := c.isAlphanum || c == '_'

/-- Greedy extension of a tag by hyphen-joined word groups; the fuel is
structural and any fuel at least the length of rest gives the fixed
point. -/
def tagLoop : Nat → Str → Str → Str × Str
  | 0, acc, rest => (acc, rest)
  | fuel + 1, acc, rest =>
      match rest with
      | '-' :: rest2 =>
          let w2 := rest2.takeWhile isWordChar
          if w2.isEmpty then (acc, rest)
          else tagLoop fuel (acc ++ '-' :: w2) (rest2.dropWhile isWordChar)
      | _ => (acc, rest)

/-- Longest match of the tag body (word chars, then hyphen-joined word
groups) at the front of the input; returns the tag and the rest. -/
def matchTagBody (cs : Str) : Option (Str × Str) :=
  let w := cs.takeWhile isWordChar
  if w.isEmpty then none
  else some (tagLoop cs.length w (cs.dropWhile isWordChar))

/-- One left-to-right scan of the text (fuelled structurally; any fuel at
least the length of the input gives the fixed point): the list of captured
tags together with the text with every match removed. -/
def hashTagScanF : Nat → Str → List Str × Str
  | 0, cs => ([], cs)
  | _ + 1, [] => ([], [])
  | fuel + 1, '#' :: rest =>
      match matchTagBody rest with
      | some (tag, rest2) =>
          let r := hashTagScanF fuel rest2
          (tag :: r.1, r.2)
      | none =>
          let r := hashTagScanF fuel rest
          (r.1, '#' :: r.2)
  | fuel + 1, c :: rest =>
      let r := hashTagScanF fuel rest
      (r.1, c :: r.2)

/-- The scan with enough fuel for the whole text. -/
def hashTagScan (cs : Str) : List Str × Str := hashTagScanF cs.length cs

/-- extract_hash_tags (infrastructure/web/mod.rs lines 124-130). -/
def extract_hash_tags (text : Str) : List Str := (hashTagScan text).1

/-- One pass of str::replace of two spaces by one, scanning left to right
and continuing after each replacement. -/
def collapseDoubleSpace : Str → Str
  | ' ' :: ' ' :: rest => ' ' :: collapseDoubleSpace rest
  | c :: rest => c :: collapseDoubleSpace rest
  | [] => []

/-- str::trim: strip whitespace from both ends. -/
def trimStr (cs : Str) : Str :=
  ((cs.dropWhile Char.isWhitespace).reverse.dropWhile Char.isWhitespace).reverse

/-- remove_hash_tags (infrastructure/web/mod.rs lines 132-134): delete the
regex matches, collapse double spaces, trim. -/
def remove_hash_tags (text : Str) : Str :=
  trimStr (collapseDoubleSpace (hashTagScan text).2)

/-! ## Errors and the repository model -/

/-- business::error::RepoError. -/
inductive RepoError where
  | notFound | invalidVersion | other
deriving DecidableEq, Repr

/-- business::error::ParameterError (the variants the embedded operations
use). -/
inductive ParameterError where
  | bbox | license | emptyComment | ratingValue | userExists
  | forbidden | credentials | emailNotConfirmed
deriving DecidableEq, Repr

/-- business::error::Error. -/
inductive Error where
  | parameter : ParameterError → Error
  | repo : RepoError → Error
  | pwhash : Error
deriving DecidableEq, Repr

/-- The state of the repository collaborator: one list per entity, as
exposed by the all_xxx accessors of the Db trait (spec section 6). -/
structure DbState where
  entries : List Entry
  categories : List Category
  tags : List Tag
  ratings : List Rating
  comments : List Comment
  users : List User
  triples : List Triple
  bbox_subscriptions : List BboxSubscription
deriving DecidableEq, Repr

/-- Modelled from the spec: Db::get_entry (spec section 6) returns the
stored entry with the given id or fails with NotFound. -/
def DbState.get_entry (db : DbState) (id : Str) : Except RepoError Entry :=
  match db.entries.find? (fun e => e.id == id) with
  | some e => Except.ok e
  | none => Except.error RepoError.notFound

/-- Modelled from the spec: Db::update_entry replaces the stored entry
that carries the id of the argument. -/
def DbState.update_entry_record (db : DbState) (e : Entry) : DbState :=
  { db with entries := db.entries.map fun x => if x.id == e.id then e else x }

/-- Modelled from the spec: Db::create_tag_if_it_does_not_exist upserts a
tag. -/
def DbState.create_tag_if_it_does_not_exist (db : DbState) (t : Tag) : DbState :=
  if db.tags.any fun x => x.id == t.id then db
  else { db with tags := db.tags ++ [t] }

/-- Modelled from the spec: Db::create_triple stores a triple. -/
def DbState.create_triple (db : DbState) (t : Triple) : DbState :=
  { db with triples := db.triples ++ [t] }

/-- Modelled from the spec: Db::create_bbox_subscription stores a
subscription record. -/
def DbState.create_bbox_subscription (db : DbState) (s : BboxSubscription) : DbState :=
  { db with bbox_subscriptions := db.bbox_subscriptions ++ [s] }

/-- Modelled from the spec (section 3: creating a new subscription deletes
the prior subscription triple and record): Db::delete_bbox_subscription
removes the record with the given id and the SubscribedTo triples whose
object is that subscription. -/
def DbState.delete_bbox_subscription (db : DbState) (s_id : Str) : DbState :=
  { db with
    bbox_subscriptions := db.bbox_subscriptions.filter fun s => !(s.id == s_id),
    triples := db.triples.filter fun t => !(t.object == ObjectId.bbox_subscription s_id) }

/-! ## Use cases (business/usecase/mod.rs) -/

/-- usecase::UpdateEntry. -/
structure UpdateEntry where
  id : Str
  osm_node : Option Nat
  version : Nat
  title : Str
  description : Str
  lat : F64
  lng : F64
  street : Option Str
  zip : Option Str
  city : Option Str
  country : Option Str
  email : Option Str
  telephone : Option Str
  homepage : Option Str
  categories : List Str
  tags : List Str
deriving DecidableEq, Repr

/-- update_entry (business/usecase/mod.rs lines 360-390).  The timestamp
produced there by the clock is passed in as the parameter now. -/
def update_entry (db : DbState) (now : Nat) (e : UpdateEntry) : Except Error DbState :=
  match db.get_entry e.id with
  | Except.error err => Except.error (Error.repo err)
  | Except.ok old =>
      if old.version + 1 ≠ e.version then Except.error (Error.repo RepoError.invalidVersion)
      else
        let new_entry : Entry :=
          { id := e.id
            osm_node := none
            created := now
            version := e.version
            title := e.title
            description := e.description
            lat := e.lat
            lng := e.lng
            street := e.street
            zip := e.zip
            city := e.city
            country := e.country
            email := e.email
            telephone := e.telephone
            homepage := e.homepage
            categories := e.categories
            tags := e.tags
            license := old.license }
        let db1 := new_entry.tags.foldl
          (fun d t => d.create_tag_if_it_does_not_exist ⟨t⟩) db
        Except.ok (db1.update_entry_record new_entry)

/-- The projection used by the subscription queries (business/usecase/mod.rs
lines 468-476): a SubscribedTo triple from a user to a subscription maps to
the (user id, subscription id) pair. -/
def subscriptionPair : Triple → Option (Str × Str)
  | ⟨ObjectId.user u_id, Relation.subscribedTo, ObjectId.bbox_subscription s_id⟩ =>
      some (u_id, s_id)
  | _ => none

/-- The subscription ids held by a user, as computed identically in
create_or_modify_subscription, get_bbox_subscriptions and
unsubscribe_all_bboxes (business/usecase/mod.rs lines 467-479): project
the SubscribedTo triples to (user id, subscription id) pairs, keep those
of the user, return the subscription ids. -/
def user_subscription_ids (triples : List Triple) (username : Str) : List Str :=
  ((triples.filterMap subscriptionPair).filter fun p => p.1 == username).map Prod.snd

/-- create_or_modify_subscription (business/usecase/mod.rs lines 466-500).
The fresh uuid produced there is passed in as the parameter new_id.  When
the user already holds subscriptions, only the first listed one is
deleted; then the new record and the new SubscribedTo triple are
created. -/
def create_or_modify_subscription (bbox : Bbox) (username : Str) (new_id : Str)
    (db : DbState) : DbState :=
  let user_subscriptions := user_subscription_ids db.triples username
  let db1 :=
    match user_subscriptions with
    | [] => db
    | s0 :: _ => db.delete_bbox_subscription s0
  let db2 := db1.create_bbox_subscription
    { id := new_id
      south_west_lat := bbox.south_west.lat
      south_west_lng := bbox.south_west.lng
      north_east_lat := bbox.north_east.lat
      north_east_lng := bbox.north_east.lng }
  db2.create_triple
    { subject := ObjectId.user username
      predicate := Relation.subscribedTo
      object := ObjectId.bbox_subscription new_id }

/-! ## Search (business/usecase/mod.rs lines 568-622) -/

/-- Modelled from the spec: geo::is_in_bbox over the two-coordinate list
form used by the search (spec section 4.1): false whenever the coordinate
or a bound is non-finite or the list does not hold exactly two
coordinates, otherwise containment between south-west and north-east. -/
def is_in_bbox (lat lng : F64) (bbox : List Coordinate) : Bool :=
  match bbox with
  | [sw, ne] =>
      lat.isFinite && lng.isFinite &&
      sw.lat.isFinite && sw.lng.isFinite && ne.lat.isFinite && ne.lng.isFinite &&
      sw.lat.fle lat && lat.fle ne.lat && sw.lng.fle lng && lng.fle ne.lng
  | _ => false

/-- Modelled from the spec: filter::InBBox for Entry tests the entry
coordinates against the box. -/
def Entry.in_bbox (e : Entry) (bbox : List Coordinate) : Bool :=
  is_in_bbox e.lat e.lng bbox

/-- Modelled from the spec: filter::entries_by_category_ids (spec section
4.4): the entry passes iff its categories intersect the requested set. -/
def entries_by_category_ids (cat_ids : List Str) (e : Entry) : Bool :=
  e.categories.any fun c => cat_ids.any fun c2 => c == c2

/-- Substring test on character lists. -/
def listInfix (needle hay : Str) : Bool :=
  (List.range (hay.length + 1)).any fun i => needle.isPrefixOf (hay.drop i)

/-- Case-insensitive substring test on title and description (spec section
4.4). -/
def textMatch (text : Str) (e : Entry) : Bool :=
  let t := text.map Char.toLower
  listInfix t (e.title.map Char.toLower) || listInfix t (e.description.map Char.toLower)

/-- Modelled from the spec: filter::entries_by_tags_or_search_text (spec
section 4.4): the entry passes if one of the requested tags occurs among
its tags or the free text matches title or description. -/
def entries_by_tags_or_search_text (text : Str) (tags : List Str) (e : Entry) : Bool :=
  (tags.any fun t => e.tags.any fun t2 => t2 == t) || textMatch text e

/-- usecase::SearchRequest; the rating lookup indexed by entry id is a
function. -/
structure SearchRequest where
  bbox : List Coordinate
  categories : Option (List Str)
  text : Str
  tags : List Str
  entry_ratings : Str → F64

/-- MAX_INVISIBLE_RESULTS (business/usecase/mod.rs line 568). -/
def MAX_INVISIBLE_RESULTS : Nat := 5

/-- BBOX_LAT_EXT = 0.02 (business/usecase/mod.rs line 569). -/
def BBOX_LAT_EXT : F64 := F64.val (2 / 100)

/-- BBOX_LNG_EXT = 0.04 (business/usecase/mod.rs line 570). -/
def BBOX_LNG_EXT : F64 := F64.val (4 / 100)

/-- extend_bbox (business/usecase/mod.rs lines 572-579): clone the list and
mutate positions 0 and 1; none models the index panic on a list with
fewer than two coordinates. -/
def extend_bbox (bbox : List Coordinate) : Option (List Coordinate) :=
  match bbox with
  | c0 :: c1 :: rest =>
      some (⟨c0.lat.sub BBOX_LAT_EXT, c0.lng.sub BBOX_LNG_EXT⟩ ::
            ⟨c1.lat.add BBOX_LAT_EXT, c1.lng.add BBOX_LNG_EXT⟩ :: rest)
  | _ => none

/-- Modelled from the spec: the map-based SortByAverageRating used by the
search (spec section 4.3): stable sort descending by the rating of the
entry id, with the NaN-safe comparison defaulted to Equal.  (The
business/sort.rs file in the sources holds the older slice-based variant;
the map-based one invoked at business/usecase/mod.rs line 604 is not among
the sources.) -/
def sort_by_avg_rating (entries : List Entry) (entry_ratings : Str → F64) : List Entry :=
  mergeSortD
    (fun a b => (((entry_ratings b.id).fcmp (entry_ratings a.id)).getD Ordering.eq)
      != Ordering.gt)
    entries

/-- search (business/usecase/mod.rs lines 581-622): filter by the extended
box, optionally by categories, by tags or text; sort by rating; split into
the ids visible in the original box and at most MAX_INVISIBLE_RESULTS
remaining ids.  none models the index panic of extend_bbox. -/
def search (db : DbState) (req : SearchRequest) : Option (List Str × List Str) :=
  match extend_bbox req.bbox with
  | none => none
  | some extended_bbox =>
      let entries1 := db.entries.filter fun x => x.in_bbox extended_bbox
      let entries2 :=
        match req.categories with
        | some cat_ids => entries1.filter (entries_by_category_ids cat_ids)
        | none => entries1
      let entries3 := entries2.filter (entries_by_tags_or_search_text req.text req.tags)
      let sorted := sort_by_avg_rating entries3 req.entry_ratings
      let visible_results := (sorted.filter fun x => x.in_bbox req.bbox).map Entry.id
      let invisible_results :=
        ((sorted.filter fun e => !(visible_results.any fun v => v == e.id)).take
          MAX_INVISIBLE_RESULTS).map Entry.id
      some (visible_results, invisible_results)

/-! ## Concrete fixtures used by counterexamples and witnesses -/

/-- An entry with the given id and coordinates and defaults elsewhere. -/
def mkEntry (id : Str) (lat lng : F64) : Entry :=
  { id := id, osm_node := none, created := 0, version := 0, title := [], description := [],
    lat := lat, lng := lng, street := none, zip := none, city := none, country := none,
    email := none, telephone := none, homepage := none, categories := [], tags := [],
    license := none }

/-- A rating with the given id and value and defaults elsewhere. -/
def mkRating (id : Str) (v : Int) : Rating :=
  { id := id, entry_id := [], created := 0, title := [], value := v,
    context := RatingContext.diversity, source := none }

/-- An IsRatedWith triple from an entry id to a rating id. -/
def linkTriple (eid rid : Str) : Triple :=
  ⟨ObjectId.entry eid, Relation.isRatedWith, ObjectId.rating rid⟩

/-- A SubscribedTo triple from a user id to a subscription id. -/
def subTriple (uid sid : Str) : Triple :=
  ⟨ObjectId.user uid, Relation.subscribedTo, ObjectId.bbox_subscription sid⟩

/-- A subscription record with the given id over the zero box. -/
def mkSub (id : Str) : BboxSubscription :=
  ⟨id, F64.val 0, F64.val 0, F64.val 0, F64.val 0⟩

/-- The empty repository state. -/
def emptyDb : DbState := ⟨[], [], [], [], [], [], [], []⟩

/-- A repository whose user holds two distinct subscriptions. -/
def fxTwoSubDb : DbState :=
  { emptyDb with
    triples := [subTriple "u".toList "s1".toList, subTriple "u".toList "s2".toList],
    bbox_subscriptions := [mkSub "s1".toList, mkSub "s2".toList] }

/-- A repository whose user holds one subscription. -/
def fxOneSubDb : DbState :=
  { emptyDb with
    triples := [subTriple "u".toList "s1".toList],
    bbox_subscriptions := [mkSub "s1".toList] }

/-- The zero box. -/
def fxBbox : Bbox := ⟨⟨F64.val 0, F64.val 0⟩, ⟨F64.val 0, F64.val 0⟩⟩

/-- An entry with a NaN coordinate. -/
def fxNanEntry : Entry := mkEntry "n".toList F64.nan (F64.val 0)

/-- A finite entry at the origin. -/
def fxFinEntry : Entry := mkEntry "f".toList (F64.val 0) (F64.val 0)

/-- A non-finite reference coordinate. -/
def fxNanCoord : Coordinate := ⟨F64.nan, F64.val 0⟩

/-- Entry, rating and duplicated link triple of the rating-mean
counterexample. -/
def fxEntryA : Entry := mkEntry "a".toList (F64.val 0) (F64.val 0)

/-- An entry just outside the unit search box (latitude 1.01). -/
def fxEntryOutB : Entry := mkEntry "b".toList (F64.val (101 / 100)) (F64.val 0)

/-- Repository with two entries, one inside and one just outside the
search box below. -/
def fxSearchDb : DbState :=
  { emptyDb with entries := [fxEntryA, fxEntryOutB] }

/-- The unit search box extended by the fixed margins. -/
def fxExtBox : List Coordinate :=
  [⟨F64.val (-51 / 50), F64.val (-26 / 25)⟩, ⟨F64.val (51 / 50), F64.val (26 / 25)⟩]

/-- A search request over the unit box around the origin. -/
def fxSearchReq : SearchRequest :=
  { bbox := [⟨F64.val (-1), F64.val (-1)⟩, ⟨F64.val 1, F64.val 1⟩],
    categories := none, text := [], tags := [], entry_ratings := fun _ => F64.val 0 }

/-- A search request whose bounding-box list is empty. -/
def fxShortReq : SearchRequest :=
  { bbox := [], categories := none, text := [], tags := [],
    entry_ratings := fun _ => F64.val 0 }

/-- A clean triple over covered predicates. -/
def fxCleanTriple1 : Triple :=
  ⟨ObjectId.user "x".toList, Relation.createdBy, ObjectId.user "y".toList⟩

/-- A second clean triple differing in the object id. -/
def fxCleanTriple2 : Triple :=
  ⟨ObjectId.user "x".toList, Relation.createdBy, ObjectId.user "z".toList⟩

/-- First half of the identity collision: subject id embeds the separator
pattern. -/
def fxCollTriple1 : Triple :=
  ⟨ObjectId.user "a-created_by-user-b".toList, Relation.createdBy, ObjectId.user "c".toList⟩

/-- Second half of the identity collision. -/
def fxCollTriple2 : Triple :=
  ⟨ObjectId.user "a".toList, Relation.createdBy, ObjectId.user "b-created_by-user-c".toList⟩

/-- The one rating of the rating-mean counterexample. -/
def fxRating1 : Rating := mkRating "1".toList 2

/-- The link triple of the rating-mean counterexample. -/
def fxLinkA1 : Triple := linkTriple "a".toList "1".toList

/-- A stored entry used by the update-entry witnesses. -/
def fxStoredEntry : Entry := mkEntry "e1".toList (F64.val 0) (F64.val 0)

/-- A repository holding just that entry. -/
def fxEntryDb : DbState := { emptyDb with entries := [fxStoredEntry] }

/-- An update request for that entry. -/
def fxUpdateReq (version : Nat) : UpdateEntry :=
  { id := "e1".toList, osm_node := none, version := version, title := "t".toList,
    description := "d".toList, lat := F64.val 1, lng := F64.val 2, street := none,
    zip := none, city := none, country := none, email := none, telephone := none,
    homepage := none, categories := [], tags := ["tag1".toList] }

/-! ## Helper lemmas: the stable merge sort -/

theorem mergeD_perm (le : α → α → Bool) (l r : List α) : (mergeD le l r).Perm (l ++ r) := by
  induction l, r using mergeD.induct le with
  | case1 r => simp [mergeD]
  | case2 l => simp [mergeD]
  | case3 a l b r hle ih =>
      simp only [mergeD, hle, if_true]
      exact List.Perm.cons a ih
  | case4 a l b r hle ih =>
      simp only [mergeD, hle, if_false]
      exact (List.Perm.cons b ih).trans List.perm_middle.symm

theorem mergeSortD_perm (le : α → α → Bool) (l : List α) : (mergeSortD le l).Perm l := by
  induction l using mergeSortD.induct le with
  | case1 l h => simp [mergeSortD, h]
  | case2 l h n ih1 ih2 =>
      rw [mergeSortD]
      simp only [h, dite_false]
      exact ((mergeD_perm le _ _).trans
        ((ih1.append ih2).trans (by rw [List.take_append_drop])))

theorem mem_mergeSortD {le : α → α → Bool} {l : List α} {a : α} :
    a ∈ mergeSortD le l ↔ a ∈ l :=
  (mergeSortD_perm le l).mem_iff

theorem length_mergeSortD (le : α → α → Bool) (l : List α) :
    (mergeSortD le l).length = l.length :=
  (mergeSortD_perm le l).length_eq

theorem pairP_of_all {P : α → Bool} {l : List α} (h : ∀ x ∈ l, P x = true) :
    l.Pairwise (fun a b => P a = true → P b = true) := by
  induction l with
  | nil => simp
  | cons a t ih =>
      simp only [List.pairwise_cons]
      exact ⟨fun b hb _ => h b (List.mem_cons_of_mem a hb),
             ih fun x hx => h x (List.mem_cons_of_mem a hx)⟩

theorem mergeD_pairP1 {P : α → Bool} {le : α → α → Bool}
    (hle : ∀ a b, le a b = !(P a)) (l r : List α) :
    l.Pairwise (fun a b => P a = true → P b = true) →
    r.Pairwise (fun a b => P a = true → P b = true) →
    (mergeD le l r).Pairwise (fun a b => P a = true → P b = true) := by
  induction l, r using mergeD.induct le with
  | case1 r => intro _ hr; simpa [mergeD] using hr
  | case2 l => intro hl _; simpa [mergeD] using hl
  | case3 a l b r hla ih =>
      intro hl hr
      have hPa : P a = false := by
        have := hle a b
        rw [hla] at this
        simpa using this.symm
      simp only [mergeD, hla, if_true]
      rw [List.pairwise_cons]
      exact ⟨fun x _ hx => absurd (hPa ▸ hx) (by simp),
             ih (List.Pairwise.of_cons hl) hr⟩
  | case4 a l b r hla ih =>
      intro hl hr
      have hlaf : le a b = false := by simpa using hla
      have hPa : P a = true := by
        have := hle a b
        rw [hlaf] at this
        simpa using this.symm
      simp only [mergeD, hlaf, Bool.false_eq_true, if_false]
      by_cases hPb : P b = true
      · have hall : ∀ x ∈ mergeD le (a :: l) r, P x = true := by
          intro x hx
          have hmem := (mergeD_perm le (a :: l) r).mem_iff.mp hx
          rw [List.mem_append] at hmem
          rcases hmem with hm | hm
          · rcases List.mem_cons.mp hm with rfl | hm2
            · exact hPa
            · exact (List.pairwise_cons.mp hl).1 x hm2 hPa
          · exact (List.pairwise_cons.mp hr).1 x hm hPb
        rw [List.pairwise_cons]
        exact ⟨fun x hx _ => hall x hx, pairP_of_all hall⟩
      · rw [List.pairwise_cons]
        refine ⟨fun x _ hx => absurd hx hPb, ih hl (List.Pairwise.of_cons hr)⟩

theorem mergeD_pairP2 {P : α → Bool} {le : α → α → Bool}
    (hle : ∀ a b, P b = true → le a b = true) (l r : List α) :
    l.Pairwise (fun a b => P a = true → P b = true) →
    r.Pairwise (fun a b => P a = true → P b = true) →
    ((∀ x ∈ l, P x = false) ∨ (∀ x ∈ r, P x = true)) →
    (mergeD le l r).Pairwise (fun a b => P a = true → P b = true) := by
  induction l, r using mergeD.induct le with
  | case1 r => intro _ hr _; simpa [mergeD] using hr
  | case2 l => intro hl _ _; simpa [mergeD] using hl
  | case3 a l b r hla ih =>
      intro hl hr hdisj
      simp only [mergeD, hla, if_true]
      by_cases hPa : P a = true
      · have hallr : ∀ x ∈ b :: r, P x = true := by
          rcases hdisj with hd | hd
          · exact absurd (hd a (List.mem_cons_self a l)) (by simp [hPa])
          · exact hd
        have hall : ∀ x ∈ mergeD le l (b :: r), P x = true := by
          intro x hx
          have hmem := (mergeD_perm le l (b :: r)).mem_iff.mp hx
          rw [List.mem_append] at hmem
          rcases hmem with hm | hm
          · exact (List.pairwise_cons.mp hl).1 x hm hPa
          · exact hallr x hm
        rw [List.pairwise_cons]
        exact ⟨fun x hx _ => hall x hx, pairP_of_all hall⟩
      · rw [List.pairwise_cons]
        refine ⟨fun x _ hx => absurd hx hPa, ?_⟩
        apply ih (List.Pairwise.of_cons hl) hr
        rcases hdisj with hd | hd
        · exact Or.inl fun x hx => hd x (List.mem_cons_of_mem a hx)
        · exact Or.inr hd
  | case4 a l b r hla ih =>
      intro hl hr hdisj
      have hlaf : le a b = false := by simpa using hla
      have hPb : P b = false := by
        by_contra hb
        have := hle a b (by simpa using hb)
        rw [hlaf] at this
        exact absurd this (by simp)
      simp only [mergeD, hlaf, Bool.false_eq_true, if_false]
      rw [List.pairwise_cons]
      refine ⟨fun x _ hx => absurd (hPb ▸ hx) (by simp), ?_⟩
      apply ih hl (List.Pairwise.of_cons hr)
      rcases hdisj with hd | hd
      · exact Or.inl hd
      · exact Or.inr fun x hx => hd x (List.mem_cons_of_mem b hx)

theorem pairP_take_drop {P : α → Bool} {l : List α} (n : Nat)
    (h : l.Pairwise (fun a b => P a = true → P b = true)) :
    (l.take n).Pairwise (fun a b => P a = true → P b = true) ∧
    (l.drop n).Pairwise (fun a b => P a = true → P b = true) ∧
    ((∀ x ∈ l.take n, P x = false) ∨ (∀ x ∈ l.drop n, P x = true)) := by
  rw [← List.take_append_drop n l, List.pairwise_append] at h
  obtain ⟨h1, h2, hcross⟩ := h
  refine ⟨h1, h2, ?_⟩
  by_cases hex : ∃ x ∈ l.take n, P x = true
  · obtain ⟨x, hx, hPx⟩ := hex
    exact Or.inr fun b hb => hcross x hx b hb hPx
  · push_neg at hex
    exact Or.inl fun x hx => by simpa using hex x hx

theorem mergeSortD_pairP1 {P : α → Bool} {le : α → α → Bool}
    (hle : ∀ a b, le a b = !(P a)) (l : List α) :
    (mergeSortD le l).Pairwise (fun a b => P a = true → P b = true) := by
  induction l using mergeSortD.induct le with
  | case1 l h =>
      rw [mergeSortD]
      simp only [h, dite_true]
      match l, h with
      | [], _ => simp
      | [a], _ => simp
  | case2 l h n ih1 ih2 =>
      rw [mergeSortD]
      simp only [h, dite_false]
      exact mergeD_pairP1 hle _ _ ih1 ih2

theorem mergeSortD_pairP2 {P : α → Bool} {le : α → α → Bool}
    (hle : ∀ a b, P b = true → le a b = true) (l : List α) :
    l.Pairwise (fun a b => P a = true → P b = true) →
    (mergeSortD le l).Pairwise (fun a b => P a = true → P b = true) := by
  induction l using mergeSortD.induct le with
  | case1 l h =>
      intro hl
      rw [mergeSortD]
      simpa [h] using hl
  | case2 l h n ih1 ih2 =>
      intro hl
      rw [mergeSortD]
      simp only [h, dite_false]
      obtain ⟨h1, h2, hdisj⟩ := pairP_take_drop n hl
      apply mergeD_pairP2 hle _ _ (ih1 h1) (ih2 h2)
      rcases hdisj with hd | hd
      · exact Or.inl fun x hx => hd x (mem_mergeSortD.mp hx)
      · exact Or.inr fun x hx => hd x (mem_mergeSortD.mp hx)

theorem distance_to_nan (e : Entry) (c : Coordinate) (h : e.finiteCoords = false) :
    e.distance_to c = F64.nan := by
  unfold Entry.distance_to distance
  cases hl : e.lat <;> cases hg : e.lng <;> cases hcl : c.lat <;> cases hcg : c.lng <;>
    first
      | rfl
      | (exfalso
         rw [Entry.finiteCoords, hl, hg] at h
         simp [F64.isFinite] at h)

theorem fcmp_nan_right (x : F64) : x.fcmp F64.nan = none := by
  cases x <;> rfl

/-! ## Claims C3 and C9: the distance sort -/

/-- Claim C3, counterexample: with a non-finite reference coordinate the
sort returns the list unchanged, so an entry with non-finite coordinates
can stay in front of a finite one; the claim quantifies over every
reference coordinate and is therefore false as stated. -/
theorem sortByDistance_counterexample :
    ¬ (sort_by_distance_to [fxNanEntry, fxFinEntry] fxNanCoord).Pairwise
        (fun a b => a.finiteCoords = false → b.finiteCoords = false) := by
  decide

/-- Claim C3 (corrected): for every list of entries and every reference
coordinate with finite latitude and longitude, after sort_by_distance_to
every entry with a non-finite coordinate appears after every entry whose
coordinates are finite, and the result is a permutation of the input (the
operation is total: it never panics). -/
theorem sortByDistance_nonfinite_after_finite (entries : List Entry) (c : Coordinate)
    (hc : (c.lat.isFinite && c.lng.isFinite) = true) :
    (sort_by_distance_to entries c).Pairwise
      (fun a b => a.finiteCoords = false → b.finiteCoords = false) ∧
    (sort_by_distance_to entries c).Perm entries := by
  have hred : sort_by_distance_to entries c =
      mergeSortD
        (fun a b => (((a.distance_to c).fcmp (b.distance_to c)).getD Ordering.eq)
          != Ordering.gt)
        (mergeSortD (fun a _ => a.finiteCoords) entries) := by
    simp [sort_by_distance_to, hc]
  rw [hred]
  constructor
  · have hle1 : ∀ (a b : Entry), (fun (a : Entry) (_ : Entry) => a.finiteCoords) a b
        = !(!a.finiteCoords) := by
      intro a b; simp
    have h1 := mergeSortD_pairP1 (P := fun e => !e.finiteCoords) hle1 entries
    have hle2 : ∀ (a b : Entry), (!b.finiteCoords) = true →
        ((((a.distance_to c).fcmp (b.distance_to c)).getD Ordering.eq)
          != Ordering.gt) = true := by
      intro a b h
      have hb : b.finiteCoords = false := by simpa using h
      rw [distance_to_nan b c hb, fcmp_nan_right]
      rfl
    have h2 := mergeSortD_pairP2 hle2 _ h1
    exact h2.imp fun hab => by
      intro hfa
      simpa using hab (by simp [hfa])
  · exact (mergeSortD_perm _ _).trans (mergeSortD_perm _ _)

/-- Claim C3, witness for the corrected statement at the repository's own
test input. -/
theorem sortByDistance_nonfinite_after_finite_witness :
    ((Coordinate.mk (F64.val 0) (F64.val 0)).lat.isFinite &&
      (Coordinate.mk (F64.val 0) (F64.val 0)).lng.isFinite) = true ∧
    (sort_by_distance_to [fxNanEntry, fxFinEntry] ⟨F64.val 0, F64.val 0⟩).Pairwise
      (fun a b => a.finiteCoords = false → b.finiteCoords = false) ∧
    (sort_by_distance_to [fxNanEntry, fxFinEntry] ⟨F64.val 0, F64.val 0⟩).Perm
      [fxNanEntry, fxFinEntry] :=
  ⟨by decide,
   (sortByDistance_nonfinite_after_finite [fxNanEntry, fxFinEntry] ⟨F64.val 0, F64.val 0⟩
     (by decide)).1,
   (sortByDistance_nonfinite_after_finite [fxNanEntry, fxFinEntry] ⟨F64.val 0, F64.val 0⟩
     (by decide)).2⟩

/-- Claim C9 (implicit, confirmed): for every list of entries and every
reference coordinate with a non-finite latitude or longitude,
sort_by_distance_to returns the list exactly unchanged. -/
theorem sortByDistance_noop_of_nonfinite (entries : List Entry) (c : Coordinate)
    (h : (c.lat.isFinite && c.lng.isFinite) = false) :
    sort_by_distance_to entries c = entries := by
  simp [sort_by_distance_to, h]

/-- Claim C9, witness: at a NaN reference coordinate the non-finite-first
list comes back unchanged. -/
theorem sortByDistance_noop_of_nonfinite_witness :
    (fxNanCoord.lat.isFinite && fxNanCoord.lng.isFinite) = false ∧
    sort_by_distance_to [fxNanEntry, fxFinEntry] fxNanCoord = [fxNanEntry, fxFinEntry] :=
  ⟨by decide, sortByDistance_noop_of_nonfinite [fxNanEntry, fxFinEntry] fxNanCoord (by decide)⟩

/-! ## Claim C1: the rating mean -/

theorem length_filter_or (p q : α → Bool) (l : List α)
    (h : ∀ x ∈ l, ¬(p x = true ∧ q x = true)) :
    (l.filter fun x => p x || q x).length = (l.filter p).length + (l.filter q).length := by
  induction l with
  | nil => simp
  | cons a t ih =>
      have ht := ih fun x hx => h x (List.mem_cons_of_mem a hx)
      by_cases hp : p a = true
      · have hq : q a = false := by
          cases hqa : q a
          · rfl
          · exact absurd ⟨hp, hqa⟩ (h a (List.mem_cons_self a t))
        simp [List.filter_cons, hp, hq, ht]
        omega
      · have hp2 : p a = false := by simpa using hp
        cases hqa : q a
        · simp [List.filter_cons, hp2, hqa, ht]
        · simp [List.filter_cons, hp2, hqa, ht]
          omega

theorem filter_any_length (L : List Str) (R : List Rating)
    (hnd : L.Nodup)
    (h1 : ∀ rid ∈ L, (R.filter fun r => rid == r.id).length = 1) :
    (R.filter fun r => L.any fun x => x == r.id).length = L.length := by
  induction L with
  | nil => simp
  | cons a t ih =>
      rw [List.nodup_cons] at hnd
      have hcongr : (R.filter fun r => (a :: t).any fun x => x == r.id)
          = R.filter fun r => (a == r.id) || t.any fun x => x == r.id := by
        apply List.filter_congr
        intro r _
        simp [List.any_cons]
      rw [hcongr]
      rw [length_filter_or]
      · have h1a := h1 a (List.mem_cons_self a t)
        have hih := ih hnd.2 fun rid hr => h1 rid (List.mem_cons_of_mem a hr)
        simp only [List.length_cons]
        omega
      · intro r _ hand
        obtain ⟨hpa, hqa⟩ := hand
        have ha : a = r.id := by simpa using hpa
        obtain ⟨y, hy, hyid⟩ := List.any_eq_true.mp hqa
        have hyr : y = r.id := by simpa using hyid
        exact hnd.1 (by rw [ha, ← hyr]; exact hy)

theorem foldl_add_value (l : List Rating) (init : Int) :
    l.foldl (fun acc r => acc + r.value) init = init + (l.map Rating.value).sum := by
  induction l generalizing init with
  | nil => simp
  | cons a t ih => simp [ih, add_assoc]

/-- Claim C1 (corrected): whenever the rating ids linked to the entry via
IsRatedWith triples are pairwise distinct and each occurs on exactly one
rating of the slice, average_rating returns exactly the arithmetic mean of
the values of the linked ratings (0 when none are linked) and is never
NaN.  Without that one-to-one correspondence the divisor (the number of
link triples) differs from the number of selected ratings and the claim
fails, see the counterexample. -/
theorem averageRating_is_linked_mean (e : Entry) (ratings : List Rating)
    (triples : List Triple)
    (h1 : ((linkedRatingPairs e triples).map Prod.snd).Nodup)
    (h2 : ∀ rid ∈ (linkedRatingPairs e triples).map Prod.snd,
        (ratings.filter fun r => rid == r.id).length = 1) :
    average_rating e ratings triples = F64.val (specAverageRating e ratings triples) ∧
    average_rating e ratings triples ≠ F64.nan := by
  have hanymap : ∀ r : Rating,
      ((linkedRatingPairs e triples).any fun p => p.2 == r.id)
        = ((linkedRatingPairs e triples).map Prod.snd).any fun x => x == r.id := by
    intro r
    induction linkedRatingPairs e triples with
    | nil => rfl
    | cons a t ih => simp [ih]
  have hsel : (ratings.filter fun r => (linkedRatingPairs e triples).any fun p => p.2 == r.id)
      = ratings.filter fun r =>
          ((linkedRatingPairs e triples).map Prod.snd).any fun x => x == r.id :=
    List.filter_congr fun r _ => hanymap r
  have hlen := filter_any_length ((linkedRatingPairs e triples).map Prod.snd) ratings h1 h2
  rw [List.length_map, ← hsel] at hlen
  by_cases hn : (linkedRatingPairs e triples).length = 0
  · have hnil : linkedRatingPairs e triples = [] := List.length_eq_zero.mp hn
    have havg : average_rating e ratings triples = F64.val 0 := by
      simp [average_rating, hnil, F64.div, F64.isNaN]
    have hspec : specAverageRating e ratings triples = 0 := by
      simp [specAverageRating, hnil]
    rw [havg, hspec]
    simp
  · have hcast : ((linkedRatingPairs e triples).length : ℚ) ≠ 0 := by
      exact_mod_cast hn
    have havg : average_rating e ratings triples =
        F64.val ((((ratings.filter fun r =>
            (linkedRatingPairs e triples).any fun p => p.2 == r.id).map Rating.value).sum : ℚ)
          / ((linkedRatingPairs e triples).length : ℚ)) := by
      simp only [average_rating, foldl_add_value, zero_add, F64.div]
      rw [if_neg hcast]
      simp [F64.isNaN]
    have hspec : specAverageRating e ratings triples =
        ((((ratings.filter fun r =>
            (linkedRatingPairs e triples).any fun p => p.2 == r.id).map Rating.value).sum : ℚ)
          / ((linkedRatingPairs e triples).length : ℚ)) := by
      unfold specAverageRating
      rw [hlen]
    rw [havg, hspec]
    simp

/-- Claim C1, counterexample: with the link triple duplicated the divisor
counts two links but only one rating is selected, so the result 1 is not
the mean 2 of the linked rating values. -/
theorem averageRating_counterexample :
    average_rating fxEntryA [fxRating1] [fxLinkA1, fxLinkA1] ≠
      F64.val (specAverageRating fxEntryA [fxRating1] [fxLinkA1, fxLinkA1]) := by
  have h1 : average_rating fxEntryA [fxRating1] [fxLinkA1, fxLinkA1] = F64.val 1 := by
    simp [average_rating, specAverageRating, linkedRatingPairs, fxEntryA, fxRating1,
      fxLinkA1, mkEntry, mkRating, linkTriple, F64.div, F64.isNaN]
  have h2 : specAverageRating fxEntryA [fxRating1] [fxLinkA1, fxLinkA1] = 2 := by
    simp [specAverageRating, linkedRatingPairs, fxEntryA, fxRating1,
      fxLinkA1, mkEntry, mkRating, linkTriple]
  rw [h1, h2]
  simp

/-- Claim C1, witness for the corrected statement: two distinct linked
ratings with values 0 and 3 average to 3/2, and the result is not NaN. -/
theorem averageRating_is_linked_mean_witness :
    ((linkedRatingPairs fxEntryA
        [linkTriple "a".toList "1".toList, linkTriple "a".toList "2".toList]).map
      Prod.snd).Nodup ∧
    average_rating fxEntryA [mkRating "1".toList 0, mkRating "2".toList 3]
        [linkTriple "a".toList "1".toList, linkTriple "a".toList "2".toList] =
      F64.val (specAverageRating fxEntryA [mkRating "1".toList 0, mkRating "2".toList 3]
        [linkTriple "a".toList "1".toList, linkTriple "a".toList "2".toList]) :=
  ⟨by decide,
   (averageRating_is_linked_mean fxEntryA
     [mkRating "1".toList 0, mkRating "2".toList 3]
     [linkTriple "a".toList "1".toList, linkTriple "a".toList "2".toList]
     (by decide) (by decide)).1⟩


/-! ## Claims C5 and C7: update_entry -/

theorem tagfold_entries (tags : List Str) (db : DbState) :
    (tags.foldl (fun d t => d.create_tag_if_it_does_not_exist ⟨t⟩) db).entries = db.entries := by
  induction tags generalizing db with
  | nil => rfl
  | cons a t ih =>
      rw [List.foldl_cons, ih]
      unfold DbState.create_tag_if_it_does_not_exist
      by_cases h : db.tags.any fun x => x.id == a
      · rw [if_pos h]
      · rw [if_neg h]

theorem find?_replace (l : List Entry) (id : Str) (old new : Entry)
    (h : l.find? (fun x => x.id == id) = some old) (hnew : new.id = id) :
    (l.map fun x => if x.id == id then new else x).find? (fun x => x.id == id)
      = some new := by
  induction l with
  | nil => simp at h
  | cons a t ih =>
      by_cases ha : (a.id == id) = true
      · simp only [List.map_cons, ha, if_true]
        rw [List.find?_cons_of_pos _ (by simp [hnew])]
      · have ha2 : (a.id == id) = false := by simpa using ha
        rw [List.find?_cons_of_neg _ (by simp [ha2])] at h
        simp only [List.map_cons, ha2, Bool.false_eq_true, if_false]
        rw [List.find?_cons_of_neg _ (by simp [ha2])]
        exact ih h

/-- Claim C5 (confirmed): for every stored entry and every update request,
update_entry fails with the InvalidVersion repository error whenever the
submitted version differs from the stored version plus one, and it returns
no new repository state, so nothing is written. -/
theorem updateEntry_version_conflict (db : DbState) (now : Nat) (e : UpdateEntry)
    (old : Entry) (h1 : db.get_entry e.id = Except.ok old)
    (h2 : old.version + 1 ≠ e.version) :
    update_entry db now e = Except.error (Error.repo RepoError.invalidVersion) := by
  unfold update_entry
  rw [h1]
  simp [h2]

/-- Claim C5, witness: submitting version 5 against stored version 0
fails with the version conflict. -/
theorem updateEntry_version_conflict_witness :
    fxEntryDb.get_entry "e1".toList = Except.ok fxStoredEntry ∧
    fxStoredEntry.version + 1 ≠ 5 ∧
    update_entry fxEntryDb 7 (fxUpdateReq 5) =
      Except.error (Error.repo RepoError.invalidVersion) :=
  ⟨by rfl, by decide,
   updateEntry_version_conflict fxEntryDb 7 (fxUpdateReq 5) fxStoredEntry
     (by rfl) (by decide)⟩

/-- Claim C7 (confirmed): on a successful update the entry written to the
repository carries the license of the previously stored entry, while every
other submitted field (title, description, coordinates, address fields,
contact fields, categories, tags) replaces the stored one, the version is
the submitted one and osm_node is reset. -/
theorem updateEntry_preserves_license (db : DbState) (now : Nat) (e : UpdateEntry)
    (old : Entry) (h1 : db.get_entry e.id = Except.ok old)
    (h2 : e.version = old.version + 1) :
    ∃ db2, update_entry db now e = Except.ok db2 ∧
      db2.get_entry e.id = Except.ok
        { id := e.id, osm_node := none, created := now, version := e.version,
          title := e.title, description := e.description, lat := e.lat, lng := e.lng,
          street := e.street, zip := e.zip, city := e.city, country := e.country,
          email := e.email, telephone := e.telephone, homepage := e.homepage,
          categories := e.categories, tags := e.tags, license := old.license } := by
  have hfind : db.entries.find? (fun x => x.id == e.id) = some old := by
    unfold DbState.get_entry at h1
    cases hf : db.entries.find? fun x => x.id == e.id with
    | none => rw [hf] at h1; exact absurd h1 (by simp)
    | some a =>
        rw [hf] at h1
        simp only [Except.ok.injEq] at h1
        rw [h1]
  have hv : ¬ old.version + 1 ≠ e.version := by omega
  have hok : update_entry db now e = Except.ok
      ((e.tags.foldl (fun d t => d.create_tag_if_it_does_not_exist ⟨t⟩) db).update_entry_record
        { id := e.id, osm_node := none, created := now, version := e.version,
          title := e.title, description := e.description, lat := e.lat, lng := e.lng,
          street := e.street, zip := e.zip, city := e.city, country := e.country,
          email := e.email, telephone := e.telephone, homepage := e.homepage,
          categories := e.categories, tags := e.tags, license := old.license }) := by
    unfold update_entry
    rw [h1]
    simp [hv]
  refine ⟨_, hok, ?_⟩
  unfold DbState.update_entry_record DbState.get_entry
  simp only [tagfold_entries]
  rw [find?_replace db.entries e.id old
    { id := e.id, osm_node := none, created := now, version := e.version,
      title := e.title, description := e.description, lat := e.lat, lng := e.lng,
      street := e.street, zip := e.zip, city := e.city, country := e.country,
      email := e.email, telephone := e.telephone, homepage := e.homepage,
      categories := e.categories, tags := e.tags, license := old.license }
    hfind rfl]

/-- Claim C7, witness: updating the stored entry with version 1 keeps its
license (none) and takes every submitted field. -/
theorem updateEntry_preserves_license_witness :
    fxEntryDb.get_entry "e1".toList = Except.ok fxStoredEntry ∧
    (1 : Nat) = fxStoredEntry.version + 1 ∧
    ∃ db2, update_entry fxEntryDb 7 (fxUpdateReq 1) = Except.ok db2 ∧
      db2.get_entry "e1".toList = Except.ok
        { id := "e1".toList, osm_node := none, created := 7, version := 1,
          title := "t".toList, description := "d".toList, lat := F64.val 1,
          lng := F64.val 2, street := none, zip := none, city := none, country := none,
          email := none, telephone := none, homepage := none, categories := [],
          tags := ["tag1".toList], license := fxStoredEntry.license } :=
  ⟨by rfl, by decide,
   updateEntry_preserves_license fxEntryDb 7 (fxUpdateReq 1) fxStoredEntry
     (by rfl) (by decide)⟩
/-! ## Claim C4: one subscription per user -/

theorem subscriptionPair_eq_some {t : Triple} {u s : Str}
    (h : subscriptionPair t = some (u, s)) :
    t = ⟨ObjectId.user u, Relation.subscribedTo, ObjectId.bbox_subscription s⟩ := by
  obtain ⟨a, p, o⟩ := t
  cases a <;> cases p <;> cases o <;> (simp [subscriptionPair] at h; try simp_all)

theorem usub_filter_not_obj (triples : List Triple) (u s0 : Str) :
    user_subscription_ids
        (triples.filter fun t => !(t.object == ObjectId.bbox_subscription s0)) u
      = (user_subscription_ids triples u).filter fun x => !(x == s0) := by
  induction triples with
  | nil => rfl
  | cons t rest ih =>
      cases hsp : subscriptionPair t with
      | none =>
          cases hobj : t.object == ObjectId.bbox_subscription s0 <;>
            simp [user_subscription_ids, List.filter_cons, hobj, hsp] <;>
            simpa [user_subscription_ids] using ih
      | some p =>
          obtain ⟨uid, sid⟩ := p
          have ht := subscriptionPair_eq_some hsp
          subst ht
          by_cases hs : sid = s0
          · subst hs
            by_cases hu : uid = u <;>
              simp [user_subscription_ids, List.filter_cons, subscriptionPair, hu] <;>
              simpa [user_subscription_ids] using ih
          · by_cases hu : uid = u <;>
              simp [user_subscription_ids, List.filter_cons, subscriptionPair, hu, hs] <;>
              simpa [user_subscription_ids] using ih

theorem usub_append (l1 l2 : List Triple) (u : Str) :
    user_subscription_ids (l1 ++ l2) u
      = user_subscription_ids l1 u ++ user_subscription_ids l2 u := by
  simp [user_subscription_ids, List.filterMap_append, List.filter_append]

theorem usub_new_triple (u new_id : Str) :
    user_subscription_ids
        [⟨ObjectId.user u, Relation.subscribedTo, ObjectId.bbox_subscription new_id⟩] u
      = [new_id] := by
  simp [user_subscription_ids, subscriptionPair]

theorem usub_mem {triples : List Triple} {u x : Str}
    (h : x ∈ user_subscription_ids triples u) :
    ∃ t ∈ triples, t.object = ObjectId.bbox_subscription x := by
  simp only [user_subscription_ids, List.mem_map, List.mem_filter,
    List.mem_filterMap] at h
  obtain ⟨⟨uid, sid⟩, ⟨⟨t, ht, hsp⟩, _⟩, rfl⟩ := h
  refine ⟨t, ht, ?_⟩
  rw [subscriptionPair_eq_some hsp]

/-- Claim C4 (corrected): when the user holds at most one prior
subscription (the invariant the operation itself maintains) and the fresh
id collides with nothing, after create_or_modify_subscription the user
holds exactly one subscription: the subscription ids reachable from the
user's SubscribedTo triples are exactly the fresh id, exactly one stored
record carries the fresh id, and no record with a prior subscription id of
that user survives.  With two or more distinct prior subscriptions only
the first is deleted, see the counterexample. -/
theorem subscribe_exclusive (bbox : Bbox) (username new_id : Str) (db : DbState)
    (h1 : (user_subscription_ids db.triples username).length ≤ 1)
    (h2 : ∀ t ∈ db.triples, t.object ≠ ObjectId.bbox_subscription new_id)
    (h3 : ∀ s ∈ db.bbox_subscriptions, s.id ≠ new_id) :
    user_subscription_ids
        (create_or_modify_subscription bbox username new_id db).triples username
      = [new_id] ∧
    ((create_or_modify_subscription bbox username new_id db).bbox_subscriptions.filter
        fun s => s.id == new_id).length = 1 ∧
    ∀ s_id ∈ user_subscription_ids db.triples username,
      ∀ s ∈ (create_or_modify_subscription bbox username new_id db).bbox_subscriptions,
        s.id ≠ s_id := by
  cases husub : user_subscription_ids db.triples username with
  | nil =>
      unfold create_or_modify_subscription
      rw [husub]
      simp only [DbState.create_triple, DbState.create_bbox_subscription]
      refine ⟨?_, ?_, ?_⟩
      · rw [usub_append, husub, usub_new_triple]
        rfl
      · rw [List.filter_append]
        have hnil : db.bbox_subscriptions.filter (fun s => s.id == new_id) = [] := by
          rw [List.filter_eq_nil_iff]
          intro s hs
          simp [h3 s hs]
        rw [hnil]
        simp
      · intro s_id hs_id
        simp at hs_id
  | cons s0 tl =>
      have htl : tl = [] := by
        have := husub ▸ h1
        simpa using this
      subst htl
      have hs0new : s0 ≠ new_id := by
        have hmem : s0 ∈ user_subscription_ids db.triples username := by
          rw [husub]; exact List.mem_singleton_self s0
        obtain ⟨t, ht, hobj⟩ := usub_mem hmem
        intro heq
        exact h2 t ht (by rw [hobj, heq])
      unfold create_or_modify_subscription
      rw [husub]
      simp only [DbState.create_triple, DbState.create_bbox_subscription,
        DbState.delete_bbox_subscription]
      refine ⟨?_, ?_, ?_⟩
      · rw [usub_append, usub_filter_not_obj, husub, usub_new_triple]
        simp
      · rw [List.filter_append]
        have hnil : ((db.bbox_subscriptions.filter fun s => !(s.id == s0)).filter
            fun s => s.id == new_id) = [] := by
          rw [List.filter_eq_nil_iff]
          intro s hs
          have hsmem := List.mem_of_mem_filter hs
          simp [h3 s hsmem]
        rw [hnil]
        simp
      · intro s_id hs_id s hs
        rw [List.mem_singleton] at hs_id
        subst hs_id
        rw [List.mem_append] at hs
        rcases hs with hs | hs
        · have := List.of_mem_filter hs
          simpa using this
        · rw [List.mem_singleton] at hs
          subst hs
          exact Ne.symm hs0new

/-- Claim C4, counterexample: from a state in which the user already holds
two distinct subscriptions, only the first is deleted, so after the call
the user holds two subscriptions, not exactly one. -/
theorem subscribe_exclusive_counterexample :
    (user_subscription_ids
        (create_or_modify_subscription fxBbox "u".toList "s3".toList fxTwoSubDb).triples
        "u".toList).length ≠ 1 := by
  decide

/-- Claim C4, witness for the corrected statement: starting from one prior
subscription s1, after the call the user holds exactly the fresh
subscription s2 and the record of s1 is gone. -/
theorem subscribe_exclusive_witness :
    user_subscription_ids
        (create_or_modify_subscription fxBbox "u".toList "s2".toList fxOneSubDb).triples
        "u".toList
      = ["s2".toList] ∧
    ((create_or_modify_subscription fxBbox "u".toList "s2".toList
        fxOneSubDb).bbox_subscriptions.filter
      fun s => s.id == "s2".toList).length = 1 ∧
    ∀ s_id ∈ user_subscription_ids fxOneSubDb.triples "u".toList,
      ∀ s ∈ (create_or_modify_subscription fxBbox "u".toList "s2".toList
          fxOneSubDb).bbox_subscriptions,
        s.id ≠ s_id :=
  subscribe_exclusive fxBbox "u".toList "s2".toList fxOneSubDb
    (by decide) (by decide) (by decide)
/-! ## Claims C2 and C10: the search orchestrator -/

theorem search_shape (db : DbState) (req : SearchRequest) (vis invis : List Str)
    (hs : search db req = some (vis, invis)) :
    ∃ (ext : List Coordinate) (sorted : List Entry), extend_bbox req.bbox = some ext ∧
      (∀ x ∈ sorted, x ∈ db.entries ∧ x.in_bbox ext = true) ∧
      vis = (sorted.filter fun x => x.in_bbox req.bbox).map Entry.id ∧
      invis = ((sorted.filter fun e => !(vis.any fun v => v == e.id)).take
          MAX_INVISIBLE_RESULTS).map Entry.id := by
  cases hext : extend_bbox req.bbox with
  | none => rw [search, hext] at hs; exact absurd hs (by simp)
  | some ext =>
      cases hcat : req.categories with
      | none =>
          simp only [search, hext, hcat, Option.some.injEq, Prod.mk.injEq] at hs
          obtain ⟨h1, h2⟩ := hs
          subst h1
          subst h2
          refine ⟨ext,
            sort_by_avg_rating
              ((db.entries.filter fun x => x.in_bbox ext).filter
                (entries_by_tags_or_search_text req.text req.tags)) req.entry_ratings,
            rfl, ?_, rfl, rfl⟩
          intro x hx
          have hx2 := mem_mergeSortD.mp hx
          have hx3 := (List.mem_filter.mp hx2).1
          exact ⟨(List.mem_filter.mp hx3).1, (List.mem_filter.mp hx3).2⟩
      | some cat_ids =>
          simp only [search, hext, hcat, Option.some.injEq, Prod.mk.injEq] at hs
          obtain ⟨h1, h2⟩ := hs
          subst h1
          subst h2
          refine ⟨ext,
            sort_by_avg_rating
              (((db.entries.filter fun x => x.in_bbox ext).filter
                  (entries_by_category_ids cat_ids)).filter
                (entries_by_tags_or_search_text req.text req.tags)) req.entry_ratings,
            rfl, ?_, rfl, rfl⟩
          intro x hx
          have hx2 := mem_mergeSortD.mp hx
          have hx3 := (List.mem_filter.mp hx2).1
          have hx4 := (List.mem_filter.mp hx3).1
          exact ⟨(List.mem_filter.mp hx4).1, (List.mem_filter.mp hx4).2⟩

/-- Claim C2 (confirmed, under distinct entry ids): whenever search
succeeds, no id is both visible and invisible, at most
MAX_INVISIBLE_RESULTS ids are invisible, every entry whose id is visible
lies in the requested box, and every entry whose id is returned at all
lies in the extended box produced by extend_bbox (the box inflated by
0.02 degrees latitude and 0.04 degrees longitude on each side). -/
theorem search_visible_invisible (db : DbState) (req : SearchRequest)
    (vis invis : List Str)
    (hnodup : (db.entries.map Entry.id).Nodup)
    (hs : search db req = some (vis, invis)) :
    (∀ id ∈ vis, id ∉ invis) ∧
    invis.length ≤ MAX_INVISIBLE_RESULTS ∧
    (∀ e ∈ db.entries, e.id ∈ vis → e.in_bbox req.bbox = true) ∧
    (∀ e ∈ db.entries, e.id ∈ vis ∨ e.id ∈ invis →
      ∃ ext, extend_bbox req.bbox = some ext ∧ e.in_bbox ext = true) := by
  obtain ⟨ext, sorted, hext, hmem, hvis, hinvis⟩ := search_shape db req vis invis hs
  refine ⟨?_, ?_, ?_, ?_⟩
  · intro id hid hid2
    rw [hinvis] at hid2
    obtain ⟨e, he, heid⟩ := List.mem_map.mp hid2
    have he2 := List.take_subset _ _ he
    have hpred := (List.mem_filter.mp he2).2
    rw [Bool.not_eq_true', List.any_eq_false] at hpred
    exact absurd (by simp [heid]) (hpred id hid)
  · rw [hinvis, List.length_map]
    exact List.length_take_le _ _
  · intro e hedb hevis
    rw [hvis] at hevis
    obtain ⟨e2, he2, heid⟩ := List.mem_map.mp hevis
    have he2f := List.mem_filter.mp he2
    have he2db := (hmem e2 he2f.1).1
    have : e2 = e := List.inj_on_of_nodup_map hnodup he2db hedb heid
    rw [← this]
    exact he2f.2
  · intro e hedb hor
    have hexists : ∃ e2 ∈ sorted, e2.id = e.id := by
      rcases hor with hv | hv
      · rw [hvis] at hv
        obtain ⟨e2, he2, heid⟩ := List.mem_map.mp hv
        exact ⟨e2, (List.mem_filter.mp he2).1, heid⟩
      · rw [hinvis] at hv
        obtain ⟨e2, he2, heid⟩ := List.mem_map.mp hv
        exact ⟨e2, (List.mem_filter.mp (List.take_subset _ _ he2)).1, heid⟩
    obtain ⟨e2, he2, heid⟩ := hexists
    obtain ⟨he2db, he2bb⟩ := hmem e2 he2
    have : e2 = e := List.inj_on_of_nodup_map hnodup he2db hedb heid
    rw [← this]
    exact ⟨ext, hext, he2bb⟩

theorem mergeSortD_single (le : α → α → Bool) (a : α) : mergeSortD le [a] = [a] := by
  rw [mergeSortD]
  simp

theorem mergeSortD_pair (le : α → α → Bool) (a b : α) :
    mergeSortD le [a, b] = if le a b then [a, b] else [b, a] := by
  rw [mergeSortD]
  simp only [List.length_cons, List.length_nil]
  norm_num
  rw [mergeSortD_single, mergeSortD_single]
  cases h : le a b <;> simp [mergeD, h]

theorem search_on_fxSearchDb :
    search fxSearchDb fxSearchReq = some (["a".toList], ["b".toList]) := by
  have hext : extend_bbox fxSearchReq.bbox = some fxExtBox := by
    norm_num [extend_bbox, fxSearchReq, fxExtBox, BBOX_LAT_EXT, BBOX_LNG_EXT, F64.sub,
      F64.add, F64.neg]
  have hdb : fxSearchDb.entries = [fxEntryA, fxEntryOutB] := rfl
  have hcat : fxSearchReq.categories = none := rfl
  have hA : fxEntryA.in_bbox fxExtBox = true := by
    simp [Entry.in_bbox, is_in_bbox, fxEntryA, mkEntry, fxExtBox, F64.isFinite, F64.fle]
    norm_num
  have hB : fxEntryOutB.in_bbox fxExtBox = true := by
    simp [Entry.in_bbox, is_in_bbox, fxEntryOutB, mkEntry, fxExtBox, F64.isFinite,
      F64.fle]
    norm_num
  have hA2 : fxEntryA.in_bbox fxSearchReq.bbox = true := by
    simp [Entry.in_bbox, is_in_bbox, fxEntryA, mkEntry, fxSearchReq, F64.isFinite,
      F64.fle]
  have hB2 : fxEntryOutB.in_bbox fxSearchReq.bbox = false := by
    simp [Entry.in_bbox, is_in_bbox, fxEntryOutB, mkEntry, fxSearchReq, F64.isFinite,
      F64.fle]
    norm_num
  have htA : entries_by_tags_or_search_text fxSearchReq.text fxSearchReq.tags fxEntryA
      = true := by
    simp [entries_by_tags_or_search_text, textMatch, fxSearchReq, listInfix]
    exact Or.inl ⟨0, by omega⟩
  have htB : entries_by_tags_or_search_text fxSearchReq.text fxSearchReq.tags fxEntryOutB
      = true := by
    simp [entries_by_tags_or_search_text, textMatch, fxSearchReq, listInfix]
    exact Or.inl ⟨0, by omega⟩
  have hc : ((((fxSearchReq.entry_ratings fxEntryOutB.id).fcmp
      (fxSearchReq.entry_ratings fxEntryA.id)).getD Ordering.eq) != Ordering.gt)
        = true := by
    simp [fxSearchReq, F64.fcmp]
    rfl
  have hsorted : sort_by_avg_rating [fxEntryA, fxEntryOutB] fxSearchReq.entry_ratings
      = [fxEntryA, fxEntryOutB] := by
    rw [sort_by_avg_rating, mergeSortD_pair]
    rw [hc]
    simp
  simp only [search, hext, hdb, hcat, List.filter_cons, hA, hB, htA, htB, if_true,
    List.filter_nil, hsorted, hA2, hB2, Bool.false_eq_true, if_false]
  simp [fxEntryA, fxEntryOutB, mkEntry, MAX_INVISIBLE_RESULTS]

/-- Claim C2, witness: on a two-entry database, the entry in the requested
box is visible, the nearby entry only inside the extended box is
invisible, and the four properties hold at that instance. -/
theorem search_visible_invisible_witness :
    (fxSearchDb.entries.map Entry.id).Nodup ∧
    ((∀ id ∈ ["a".toList], id ∉ ["b".toList]) ∧
     ["b".toList].length ≤ MAX_INVISIBLE_RESULTS ∧
     (∀ e ∈ fxSearchDb.entries, e.id ∈ ["a".toList] →
        e.in_bbox fxSearchReq.bbox = true) ∧
     (∀ e ∈ fxSearchDb.entries, e.id ∈ ["a".toList] ∨ e.id ∈ ["b".toList] →
        ∃ ext, extend_bbox fxSearchReq.bbox = some ext ∧ e.in_bbox ext = true)) :=
  ⟨by decide,
   search_visible_invisible fxSearchDb fxSearchReq ["a".toList] ["b".toList]
     (by decide) search_on_fxSearchDb⟩

/-- Claim C10 (implicit, confirmed): extend_bbox only touches positions 0
and 1 of the coordinate list, so it is total on every list with at least
two coordinates; the precondition is necessary and unvalidated, since on a
shorter list extend_bbox has no value (the index panics) and search
propagates that outcome instead of returning a parameter error. -/
theorem extendBbox_needs_two_coords :
    (∀ bbox : List Coordinate, 2 ≤ bbox.length → (extend_bbox bbox).isSome = true) ∧
    (∀ (db : DbState) (req : SearchRequest), req.bbox.length < 2 →
      search db req = none) := by
  constructor
  · intro bbox h
    match bbox, h with
    | c0 :: c1 :: rest, _ => rfl
  · intro db req h
    have hnone : extend_bbox req.bbox = none := by
      match hb : req.bbox, h with
      | [], _ => rfl
      | [c], _ => rfl
    rw [search, hnone]

/-- Claim C10, witness: a two-coordinate box extends, and the search over
an empty bounding-box list returns no value. -/
theorem extendBbox_needs_two_coords_witness :
    (extend_bbox [⟨F64.val 0, F64.val 0⟩, ⟨F64.val 1, F64.val 1⟩]).isSome = true ∧
    search emptyDb fxShortReq = none :=
  ⟨extendBbox_needs_two_coords.1 [⟨F64.val 0, F64.val 0⟩, ⟨F64.val 1, F64.val 1⟩]
     (by decide),
   extendBbox_needs_two_coords.2 emptyDb fxShortReq (by decide)⟩
/-! ## Claim C6: the triple identity -/

theorem append_sep_inj {a a2 b b2 : Str} (ha : '-' ∉ a) (ha2 : '-' ∉ a2)
    (h : a ++ '-' :: b = a2 ++ '-' :: b2) : a = a2 ∧ b = b2 := by
  induction a generalizing a2 with
  | nil =>
      cases a2 with
      | nil => simpa using h
      | cons c t =>
          simp only [List.nil_append, List.cons_append, List.cons.injEq] at h
          exact absurd (by rw [← h.1]; exact List.mem_cons_self _ _) ha2
  | cons c t ih =>
      cases a2 with
      | nil =>
          simp only [List.cons_append, List.nil_append, List.cons.injEq] at h
          exact absurd (by rw [h.1]; exact List.mem_cons_self _ _) ha
      | cons c2 t2 =>
          simp only [List.cons_append, List.cons.injEq] at h
          obtain ⟨hc, hrest⟩ := h
          have ht : '-' ∉ t := fun hm => ha (List.mem_cons_of_mem c hm)
          have ht2 : '-' ∉ t2 := fun hm => ha2 (List.mem_cons_of_mem c2 hm)
          obtain ⟨h1, h2⟩ := ih ht ht2 hrest
          exact ⟨by rw [hc, h1], h2⟩

theorem objectIdParts_no_sep (o : ObjectId) : '-' ∉ (objectIdParts o).1 := by
  cases o <;> simp only [objectIdParts] <;> decide

theorem predicateName_no_sep {r : Relation} {p : Str} (h : predicateName r = some p) :
    '-' ∉ p := by
  cases r <;> simp only [predicateName, Option.some.injEq, reduceCtorEq] at h <;>
    (rw [← h]; decide)

theorem objectIdParts_inj {o1 o2 : ObjectId}
    (h1 : (objectIdParts o1).1 = (objectIdParts o2).1)
    (h2 : (objectIdParts o1).2 = (objectIdParts o2).2) : o1 = o2 := by
  cases o1 <;> cases o2 <;> simp only [objectIdParts] at h1 h2 <;>
    first
      | exact absurd h1 (by decide)
      | rw [h2]

theorem predicateName_inj {r1 r2 : Relation} {p1 p2 : Str}
    (h1 : predicateName r1 = some p1) (h2 : predicateName r2 = some p2)
    (hp : p1 = p2) : r1 = r2 := by
  cases r1 <;> cases r2 <;>
    simp only [predicateName, Option.some.injEq, reduceCtorEq] at h1 h2 <;>
    first
      | rfl
      | exact absurd ((h1.trans hp).trans h2.symm) (by decide)

/-- Claim C6 (corrected): restricted to triples whose predicate is among
the three covered by the identity function and whose subject and object
ids avoid the separator character, triple_id is a faithful identity:
equal id strings hold exactly for equal (subject, predicate, object)
fields.  Equal fields always give equal ids, but for ids containing the
separator the converse fails, see the counterexample. -/
theorem tripleId_faithful_on_clean (t1 t2 : Triple)
    (hc1 : cleanTriple t1 = true) (hc2 : cleanTriple t2 = true)
    (hcov : (predicateName t1.predicate).isSome = true) :
    triple_id t1 = triple_id t2 ↔ t1 = t2 := by
  obtain ⟨s1, pr1, o1⟩ := t1
  obtain ⟨s2, pr2, o2⟩ := t2
  simp only [cleanTriple, Bool.and_eq_true, Bool.not_eq_true',
    List.contains_eq_any_beq] at hc1 hc2
  obtain ⟨hc1s, hc1o⟩ := hc1
  obtain ⟨hc2s, hc2o⟩ := hc2
  rw [List.any_eq_false] at hc1s hc1o hc2s hc2o
  have hs1 : '-' ∉ (objectIdParts s1).2 := fun hm => absurd (by simp) (hc1s '-' hm)
  have ho1 : '-' ∉ (objectIdParts o1).2 := fun hm => absurd (by simp) (hc1o '-' hm)
  have hs2 : '-' ∉ (objectIdParts s2).2 := fun hm => absurd (by simp) (hc2s '-' hm)
  have ho2 : '-' ∉ (objectIdParts o2).2 := fun hm => absurd (by simp) (hc2o '-' hm)
  constructor
  · intro h
    obtain ⟨p1, hp1⟩ := Option.isSome_iff_exists.mp hcov
    unfold triple_id at h
    simp only at h
    rw [hp1] at h
    cases hp2 : predicateName pr2 with
    | none =>
        rw [hp2] at h
        exact absurd h (by simp)
    | some p2 =>
        rw [hp2] at h
        simp only [Option.some.injEq, List.append_assoc, List.cons_append] at h
        obtain ⟨e1, rest1⟩ :=
          append_sep_inj (objectIdParts_no_sep s1) (objectIdParts_no_sep s2) h
        obtain ⟨e2, rest2⟩ := append_sep_inj hs1 hs2 rest1
        obtain ⟨e3, rest3⟩ :=
          append_sep_inj (predicateName_no_sep hp1) (predicateName_no_sep hp2) rest2
        obtain ⟨e4, e5⟩ :=
          append_sep_inj (objectIdParts_no_sep o1) (objectIdParts_no_sep o2) rest3
        simp only [Triple.mk.injEq]
        exact ⟨objectIdParts_inj e1 e2, predicateName_inj hp1 hp2 e3,
               objectIdParts_inj e4 e5⟩
  · intro h
    rw [h]

/-- Claim C6, counterexample: two distinct triples with separator-bearing
user ids share the same identity string, so equal ids do not imply equal
fields. -/
theorem tripleId_collision :
    triple_id fxCollTriple1 = triple_id fxCollTriple2 ∧ fxCollTriple1 ≠ fxCollTriple2 := by
  decide

/-- Claim C6, witness: at two clean triples over a covered predicate the
identity is faithful (here the ids differ exactly because the object ids
differ). -/
theorem tripleId_faithful_on_clean_witness :
    triple_id fxCleanTriple1 = triple_id fxCleanTriple2 ↔ fxCleanTriple1 = fxCleanTriple2 :=
  tripleId_faithful_on_clean fxCleanTriple1 fxCleanTriple2 (by decide) (by decide) (by decide)
/-! ## Claim C8: hashtag extraction -/

/-- Claim C8 (confirmed): on the text "great place #solar #diy" the
hashtag scan captures exactly the tags solar and diy in that order, and
stripping the matches, collapsing a double space and trimming leaves the
residual free text "great place". -/
theorem hashtag_example :
    extract_hash_tags "great place #solar #diy".toList
        = ["solar".toList, "diy".toList] ∧
    remove_hash_tags "great place #solar #diy".toList = "great place".toList := by
  decide
